import Mathlib

/-!
Shallow embedding of `src/main.py` (github-stats-counter).

The program paginates a GitHub list endpoint (`get_github_data`), aggregates
per-contributor statistics per endpoint (`get_user_stats_per_endpoint`, split
here into its two branches `get_user_stats_pulls` / `get_user_stats_commits`
since the Python function dispatches on the `endpoint` string), fetches commit
detail line counts (`get_commit_details`), merges the two per-endpoint
mappings, sorts and prints a report (`main`, embedded as `mergeStats`,
`sortUsersDesc` and `renderReport`).

Network I/O is embedded by scripting the responses: the paged fetcher consumes
a list of HTTP responses (one per issued request), and each item carries the
response of its per-item secondary fetch (PR files, commit detail) as data.
Python dicts are embedded as insertion-ordered association lists with unique
keys (`dictGet` / `dictSet` reproduce lookup and `d[k] = v` semantics:
updating an existing key keeps its position, a new key is appended).
-/

namespace GithubStats

/-- One scripted HTTP response for a page request of `get_github_data`:
the status code, and the parsed JSON body (a list of items) which the Python
code reads only when the status is 200. -/
structure HttpResponse (α : Type) where
  status : Nat
  data : List α
deriving Repr, DecidableEq

/-- Observable outcome of `get_github_data` on a finite response script:
`result` is `some items` when the loop returned and `none` when the script was
exhausted with the loop still running; `pagesRequested` records the `page`
parameter of each issued request in order; `sleepSeconds` totals the
`time.sleep(60)` calls; `printed` records the diagnostic `print` calls. -/
structure FetchOutcome (α : Type) where
  result : Option (List α)
  pagesRequested : List Nat
  sleepSeconds : Nat
  printed : List String
deriving Repr, DecidableEq

/-- The `while True` pagination loop of `get_github_data` (src/main.py lines
20-35): request the current page (consuming the next scripted response); on
status 200 extend `items` with the body and stop if the body holds fewer than
`per_page` items, else move to the next page; on 403 print, sleep 60 seconds
and retry the same page; on any other status print and stop with the items
accumulated so far. -/
def fetchLoop {α : Type} (perPage : Nat) (responses : List (HttpResponse α))
    (page : Nat) (acc : List α) : FetchOutcome α :=
  match responses with
  | [] => ⟨none, [], 0, []⟩
  | r :: rest =>
    if r.status = 200 then
      let acc2 := acc ++ r.data
      if r.data.length < perPage then ⟨some acc2, [page], 0, []⟩
      else
        let o := fetchLoop perPage rest (page + 1) acc2
        ⟨o.result, page :: o.pagesRequested, o.sleepSeconds, o.printed⟩
    else if r.status = 403 then
      let o := fetchLoop perPage rest page acc
      ⟨o.result, page :: o.pagesRequested, o.sleepSeconds + 60,
        "Rate limit exceeded. Waiting 60 seconds..." :: o.printed⟩
    else
      ⟨some acc, [page], 0, ["API request failed: " ++ toString r.status]⟩

/-- `get_github_data` (src/main.py lines 6-36): paginate with `per_page = 100`
starting at page 1 with an empty accumulator. -/
def get_github_data {α : Type} (responses : List (HttpResponse α)) : FetchOutcome α :=
  fetchLoop 100 responses 1 []

/-- A JSON object field as the Python `item.get(key, default)` calls see it:
the key can be absent, present with a `null` value, or present with a value.
`dict.get` returns the default only when the key is absent; a `null` value is
returned as `None`, and a subsequent `.get` on it raises `AttributeError`. -/
inductive JField (α : Type) where
  | absent
  | null
  | val (x : α)
deriving Repr, DecidableEq

/-- The `user` object of a pull-request item; its `login` is either absent or
a string (possibly empty). -/
structure PullUserObj where
  login : Option String
deriving Repr, DecidableEq

/-- One entry of the PR files sub-resource; `f.get('changes', 0)`. -/
structure PrFile where
  changes : Option Nat
deriving Repr, DecidableEq

/-- A pull-request list item: its `user` field, and the scripted response of
the per-item `GET {url}/files` call (`some files` on status 200, `none` on any
other status, in which case the Python code adds nothing to `lines`). -/
structure PullItem where
  user : JField PullUserObj
  files : Option (List PrFile)
deriving Repr, DecidableEq

/-- The top-level `author` object of a commit item (the platform account);
its `login` is either absent or a string (possibly empty). -/
structure CommitAuthorObj where
  login : Option String
deriving Repr, DecidableEq

/-- The `commit.author` metadata object; its `name` is absent or a string. -/
structure CommitMetaAuthor where
  name : Option String
deriving Repr, DecidableEq

/-- The `commit` metadata object of a commit item. -/
structure CommitMeta where
  author : JField CommitMetaAuthor
deriving Repr, DecidableEq

/-- Body of the single-commit detail endpoint:
`commit_data.get('stats', {}).get('additions', 0)` and likewise `deletions`. -/
structure CommitDetail where
  additions : Option Nat
  deletions : Option Nat
deriving Repr, DecidableEq

/-- A commit list item: `author` and `commit` fields, and the scripted
response of the per-item `get_commit_details` call (`some detail` on status
200, `none` otherwise). -/
structure CommitItem where
  author : JField CommitAuthorObj
  commit : JField CommitMeta
  detail : Option CommitDetail
deriving Repr, DecidableEq

/-- `get_commit_details` (src/main.py lines 38-53): on status 200 return
`(stats.additions, stats.deletions)` with 0 defaults; on failure print and
return `(0, 0)`. -/
def get_commit_details (resp : Option CommitDetail) : Nat × Nat :=
  match resp with
  | some d => (d.additions.getD 0, d.deletions.getD 0)
  | none => (0, 0)

/-- Per-contributor counters, the `{'prs': 0, 'commits': 0, 'lines': 0}`
dictionaries of the Python code. -/
structure Stats where
  prs : Nat
  commits : Nat
  lines : Nat
deriving Repr, DecidableEq

/-- The zero-initialised counter record. -/
def zeroStats : Stats := ⟨0, 0, 0⟩

/-- Python dict lookup `d[k]` / `k in d` on an insertion-ordered association
list. -/
def dictGet (d : List (String × Stats)) (key : String) : Option Stats :=
  match d with
  | [] => none
  | (k, v) :: rest => if key = k then some v else dictGet rest key

/-- Python dict assignment `d[k] = v`: replace in place when the key exists
(keeping its position), append otherwise. -/
def dictSet (d : List (String × Stats)) (key : String) (v : Stats) :
    List (String × Stats) :=
  match d with
  | [] => [(key, v)]
  | (k, w) :: rest =>
    if key = k then (k, v) :: rest else (k, w) :: dictSet rest key v

/-- The `if user_login not in user_stats: user_stats[user_login] = {...}`
pattern. -/
def ensureKey (d : List (String × Stats)) (key : String) : List (String × Stats) :=
  match dictGet d key with
  | some _ => d
  | none => dictSet d key zeroStats

/-- Identity extraction for a pull-request item (src/main.py line 62):
`item.get('user', {}).get('login', 'unknown')`. An absent `user` yields the
default `{}` and hence `"unknown"`; a `null` `user` makes `.get` raise
`AttributeError` (embedded as `none`); a present `user` yields its `login`
string with default `"unknown"` — note there is no falsiness check here, so an
empty-string login is returned as is. -/
def pullIdentity (it : PullItem) : Option String :=
  match it.user with
  | .absent => some "unknown"
  | .null => none
  | .val u => some (u.login.getD "unknown")

/-- The commit identity fallback (src/main.py line 66 and again line 86):
`item.get('commit', {}).get('author', {}).get('name', 'unknown')`. A `null`
`commit` or `commit.author` raises (embedded as `none`); absent fields fall
through to the `"unknown"` default; a present `name` is returned as is, even
when empty. -/
def commitFallback (it : CommitItem) : Option String :=
  match it.commit with
  | .null => none
  | .absent => some "unknown"
  | .val m =>
    match m.author with
    | .null => none
    | .absent => some "unknown"
    | .val a => some (a.name.getD "unknown")

/-- Identity extraction for a commit item (src/main.py lines 64-66, repeated
verbatim at lines 83-86): `item.get('author', {}).get('login', None)`, and
when that is falsy (`None` or the empty string) the commit-metadata fallback.
A `null` `author` raises (embedded as `none`). -/
def commitIdentity (it : CommitItem) : Option String :=
  match it.author with
  | .null => none
  | .absent => commitFallback it
  | .val a =>
    match a.login with
    | none => commitFallback it
    | some s => if s = "" then commitFallback it else some s

/-- Line total contributed by one pull-request item (src/main.py lines 74-79):
on a 200 response to the files sub-resource, the sum of each file's `changes`
(default 0); otherwise nothing is added. -/
def pullLines (it : PullItem) : Nat :=
  match it.files with
  | some fs => (fs.map (fun f => f.changes.getD 0)).sum
  | none => 0

/-- One iteration of `get_user_stats_per_endpoint`'s loop in the `'pulls'`
branch (src/main.py lines 60-79): extract the identity (propagating the
`AttributeError` of a null `user` as `none`), ensure the key exists, increment
`prs` and add the files line total. -/
def pullStep (d : List (String × Stats)) (it : PullItem) :
    Option (List (String × Stats)) :=
  match pullIdentity it with
  | none => none
  | some key =>
    let d2 := ensureKey d key
    let cur := (dictGet d2 key).getD zeroStats
    some (dictSet d2 key ⟨cur.prs + 1, cur.commits, cur.lines + pullLines it⟩)

/-- One iteration of the loop in the `'commits'` branch (src/main.py lines
60-102): extract the identity (lines 64-66; the re-extraction and re-ensure at
lines 83-90 compute the same key and are a no-op), ensure the key exists,
increment `commits` and add `additions + deletions` from the commit detail. -/
def commitStep (d : List (String × Stats)) (it : CommitItem) :
    Option (List (String × Stats)) :=
  match commitIdentity it with
  | none => none
  | some key =>
    let d2 := ensureKey d key
    let cur := (dictGet d2 key).getD zeroStats
    let ad := get_commit_details it.detail
    some (dictSet d2 key ⟨cur.prs, cur.commits + 1, cur.lines + (ad.1 + ad.2)⟩)

/-- The aggregation fold over pull-request items. -/
def pullsAggLoop (d : List (String × Stats)) (items : List PullItem) :
    Option (List (String × Stats)) :=
  match items with
  | [] => some d
  | it :: rest =>
    match pullStep d it with
    | none => none
    | some d2 => pullsAggLoop d2 rest

/-- The aggregation fold over commit items. -/
def commitsAggLoop (d : List (String × Stats)) (items : List CommitItem) :
    Option (List (String × Stats)) :=
  match items with
  | [] => some d
  | it :: rest =>
    match commitStep d it with
    | none => none
    | some d2 => commitsAggLoop d2 rest

/-- `get_user_stats_per_endpoint` with `endpoint = 'pulls'` (src/main.py lines
55-79, 104), applied to the already-fetched item list; `none` embeds an
uncaught `AttributeError` during processing. -/
def get_user_stats_pulls (items : List PullItem) : Option (List (String × Stats)) :=
  pullsAggLoop [] items

/-- `get_user_stats_per_endpoint` with `endpoint = 'commits'` (src/main.py
lines 55-66, 81-104), applied to the already-fetched item list. -/
def get_user_stats_commits (items : List CommitItem) : Option (List (String × Stats)) :=
  commitsAggLoop [] items

/-- The first merge loop of `main` (src/main.py lines 126-131): for each
`(user, stats)` of the pull-request mapping, ensure the key, assign
`user_stats[user]['prs'] = stats['prs']` and add `stats['lines']` into
`lines`. -/
def mergePrLoop (acc : List (String × Stats)) (p : List (String × Stats)) :
    List (String × Stats) :=
  match p with
  | [] => acc
  | (user, s) :: rest =>
    let acc2 := ensureKey acc user
    let cur := (dictGet acc2 user).getD zeroStats
    mergePrLoop (dictSet acc2 user ⟨s.prs, cur.commits, cur.lines + s.lines⟩) rest

/-- The second merge loop of `main` (src/main.py lines 134-139): for each
`(user, stats)` of the commit mapping, ensure the key, assign
`user_stats[user]['commits'] = stats['commits']` and add `stats['lines']` into
`lines`. -/
def mergeCommitLoop (acc : List (String × Stats)) (c : List (String × Stats)) :
    List (String × Stats) :=
  match c with
  | [] => acc
  | (user, s) :: rest =>
    let acc2 := ensureKey acc user
    let cur := (dictGet acc2 user).getD zeroStats
    mergeCommitLoop (dictSet acc2 user ⟨cur.prs, s.commits, cur.lines + s.lines⟩) rest

/-- The merge performed by `main` (src/main.py lines 122-139): start from an
empty `user_stats`, fold in the pull-request mapping, then the commit
mapping. -/
def mergeStats (prStats commitStats : List (String × Stats)) :
    List (String × Stats) :=
  mergeCommitLoop (mergePrLoop [] prStats) commitStats

/-- The Python tuple comparison `(prs, commits, lines) < (prs', commits',
lines')` used (reversed) by `sorted(..., key=..., reverse=True)` at
src/main.py line 145: lexicographic on the three counters. -/
def statKeyLt (a b : Stats) : Prop :=
  a.prs < b.prs ∨ (a.prs = b.prs ∧
    (a.commits < b.commits ∨ (a.commits = b.commits ∧ a.lines < b.lines)))

instance (a b : Stats) : Decidable (statKeyLt a b) := by
  unfold statKeyLt; exact inferInstance

/-- Insert an entry into a descending-sorted list, placing it before the first
entry whose key tuple is strictly smaller (so that, as with Python's stable
`sorted(..., reverse=True)`, ties keep their original relative order). -/
def insertDesc (x : String × Stats) (l : List (String × Stats)) :
    List (String × Stats) :=
  match l with
  | [] => [x]
  | y :: rest =>
    if statKeyLt y.2 x.2 then x :: y :: rest else y :: insertDesc x rest

/-- `sorted(user_stats.items(), key=lambda x: (x[1]['prs'], x[1]['commits'],
x[1]['lines']), reverse=True)` (src/main.py line 145), as a stable insertion
sort for the descending lexicographic order. -/
def sortUsersDesc (l : List (String × Stats)) : List (String × Stats) :=
  l.foldl (fun acc x => insertDesc x acc) []

/-- One report row (src/main.py line 150). -/
def renderRow (kv : String × Stats) : String :=
  "- " ++ kv.1 ++ ": " ++ toString kv.2.prs ++ " pull requests, " ++
    toString kv.2.commits ++ " commits, " ++ toString kv.2.lines ++
    " lines of code changed"

/-- The report of `main` (src/main.py lines 141-152) as the list of printed
lines: when the merged mapping is non-empty, a header, a 50-dash rule and one
row per contributor in sorted order; otherwise the single no-contributions
message. -/
def renderReport (user_stats : List (String × Stats)) : List String :=
  if user_stats.isEmpty then
    ["No contributions found between the specified dates."]
  else
    "\nContributor Statistics:" :: String.mk (List.replicate 50 '-') ::
      (sortUsersDesc user_stats).map renderRow

/-- The keys of an association-list dict, in insertion order. -/
def dictKeys (d : List (String × Stats)) : List String := d.map Prod.fst

/-! ## Lemmas about the paged fetcher -/

lemma fetchLoop_full_prefix {α : Type} (fullPages : List (List α))
    (hfull : ∀ p ∈ fullPages, p.length = 100) :
    ∀ (rest : List (HttpResponse α)) (page : Nat) (acc : List α),
      fetchLoop 100 (fullPages.map (fun d => ⟨200, d⟩) ++ rest) page acc =
        ⟨(fetchLoop 100 rest (page + fullPages.length) (acc ++ fullPages.flatten)).result,
         List.range' page fullPages.length ++
           (fetchLoop 100 rest (page + fullPages.length) (acc ++ fullPages.flatten)).pagesRequested,
         (fetchLoop 100 rest (page + fullPages.length) (acc ++ fullPages.flatten)).sleepSeconds,
         (fetchLoop 100 rest (page + fullPages.length) (acc ++ fullPages.flatten)).printed⟩ := by
  induction fullPages with
  | nil => intro rest page acc; simp [List.range']
  | cons d fps ih =>
    intro rest page acc
    have hd : d.length = 100 := hfull d (by simp)
    have hfps : ∀ p ∈ fps, p.length = 100 := fun p hp => hfull p (by simp [hp])
    have hrec := ih hfps rest (page + 1) (acc ++ d)
    simp only [List.map_cons, List.cons_append, fetchLoop, hd, Nat.lt_irrefl, if_true,
      if_false, ite_false, ite_true, reduceIte, List.append_eq]
    rw [hrec]
    have hlen : page + 1 + fps.length = page + (fps.length + 1) := by omega
    have hacc : acc ++ d ++ fps.flatten = acc ++ (d :: fps).flatten := by
      simp [List.flatten_cons, List.append_assoc]
    have hrange : page :: List.range' (page + 1) fps.length =
        List.range' page (fps.length + 1) := (List.range'_succ page fps.length 1).symm
    simp [hlen, hacc, List.length_cons, ← hrange]

lemma fetchLoop_403 {α : Type} (perPage : Nat) (body : List α)
    (rest : List (HttpResponse α)) (page : Nat) (acc : List α) :
    fetchLoop perPage (⟨403, body⟩ :: rest) page acc =
      ⟨(fetchLoop perPage rest page acc).result,
       page :: (fetchLoop perPage rest page acc).pagesRequested,
       (fetchLoop perPage rest page acc).sleepSeconds + 60,
       "Rate limit exceeded. Waiting 60 seconds..." ::
         (fetchLoop perPage rest page acc).printed⟩ := by
  simp [fetchLoop]

lemma fetchLoop_short_page {α : Type} (data : List α) (hshort : data.length < 100)
    (rest : List (HttpResponse α)) (page : Nat) (acc : List α) :
    fetchLoop 100 ((⟨200, data⟩ : HttpResponse α) :: rest) page acc =
      ⟨some (acc ++ data), [page], 0, []⟩ := by
  simp [fetchLoop, hshort]

lemma flatten_length_of_full {α : Type} (fullPages : List (List α))
    (hfull : ∀ p ∈ fullPages, p.length = 100) :
    fullPages.flatten.length = 100 * fullPages.length := by
  induction fullPages with
  | nil => simp
  | cons d fps ih =>
    have hd : d.length = 100 := hfull d (by simp)
    have hfps : ∀ p ∈ fps, p.length = 100 := fun p hp => hfull p (by simp [hp])
    simp [List.flatten_cons, hd, ih hfps]
    ring

lemma range'_one_concat (k : Nat) :
    List.range' 1 k ++ [1 + k] = List.range' 1 (k + 1) := by
  have h := List.range'_append 1 k 1 1
  simp only [Nat.one_mul, List.range'] at h
  simpa [Nat.add_comm] using h

/-! ## Lemmas about the association-list dict operations -/

lemma dictGet_dictSet_self (d : List (String × Stats)) (k : String) (v : Stats) :
    dictGet (dictSet d k v) k = some v := by
  induction d with
  | nil => simp [dictGet, dictSet]
  | cons hd tl ih =>
    obtain ⟨a, b⟩ := hd
    by_cases h : k = a <;> simp [dictGet, dictSet, h, ih]

lemma dictGet_dictSet_ne (d : List (String × Stats)) (k k' : String) (v : Stats)
    (h : k' ≠ k) : dictGet (dictSet d k v) k' = dictGet d k' := by
  induction d with
  | nil => simp [dictGet, dictSet, h]
  | cons hd tl ih =>
    obtain ⟨a, b⟩ := hd
    by_cases ha : k = a
    · subst ha
      simp [dictGet, dictSet, h]
    · by_cases ha' : k' = a <;> simp [dictGet, dictSet, ha, ha', ih]

lemma dictGet_eq_none_iff (d : List (String × Stats)) (k : String) :
    dictGet d k = none ↔ k ∉ dictKeys d := by
  induction d with
  | nil => simp [dictGet, dictKeys]
  | cons hd tl ih =>
    obtain ⟨a, b⟩ := hd
    by_cases h : k = a
    · subst h
      simp [dictGet, dictKeys]
    · simp [dictGet, dictKeys, h, ih]

lemma dictKeys_dictSet (d : List (String × Stats)) (k : String) (v : Stats) :
    dictKeys (dictSet d k v) =
      if k ∈ dictKeys d then dictKeys d else dictKeys d ++ [k] := by
  induction d with
  | nil => simp [dictKeys, dictSet]
  | cons hd tl ih =>
    obtain ⟨a, b⟩ := hd
    by_cases h : k = a
    · subst h
      simp [dictKeys, dictSet]
    · rw [show dictSet ((a, b) :: tl) k v = (a, b) :: dictSet tl k v from by
        simp [dictSet, h]]
      simp only [dictKeys, List.map_cons] at ih ⊢
      rw [ih]
      by_cases hm : k ∈ List.map Prod.fst tl
      · simp [hm, h]
      · simp [hm, h]

lemma nodup_dictKeys_dictSet (d : List (String × Stats)) (k : String) (v : Stats)
    (h : (dictKeys d).Nodup) : (dictKeys (dictSet d k v)).Nodup := by
  rw [dictKeys_dictSet]
  by_cases hm : k ∈ dictKeys d
  · simpa [hm] using h
  · simp only [hm, if_false, ite_false, reduceIte]
    simpa [List.nodup_append, hm] using h

lemma dictGet_ensureKey_self (d : List (String × Stats)) (k : String) :
    dictGet (ensureKey d k) k = some ((dictGet d k).getD zeroStats) := by
  unfold ensureKey
  cases h : dictGet d k with
  | none => simp [dictGet_dictSet_self]
  | some v => simp [h]

lemma dictGet_ensureKey_ne (d : List (String × Stats)) (k k' : String) (h : k' ≠ k) :
    dictGet (ensureKey d k) k' = dictGet d k' := by
  unfold ensureKey
  cases hg : dictGet d k with
  | none => simp [dictGet_dictSet_ne d k k' zeroStats h]
  | some v => rfl

lemma nodup_dictKeys_ensureKey (d : List (String × Stats)) (k : String)
    (h : (dictKeys d).Nodup) : (dictKeys (ensureKey d k)).Nodup := by
  unfold ensureKey
  cases hg : dictGet d k with
  | none => exact nodup_dictKeys_dictSet d k zeroStats h
  | some v => exact h

/-! ## Lemmas about the merge loops of `main` -/

lemma mergePrLoop_get_not_mem (p : List (String × Stats)) :
    ∀ (acc : List (String × Stats)) (k : String), k ∉ dictKeys p →
      dictGet (mergePrLoop acc p) k = dictGet acc k := by
  induction p with
  | nil => intro acc k _; rfl
  | cons hd tl ih =>
    obtain ⟨user, s⟩ := hd
    intro acc k hk
    have hne : k ≠ user := by simp [dictKeys] at hk; exact hk.1
    have htl : k ∉ dictKeys tl := by simp [dictKeys] at hk ⊢; exact hk.2
    rw [mergePrLoop, ih _ k htl, dictGet_dictSet_ne _ _ _ _ hne,
      dictGet_ensureKey_ne _ _ _ hne]

lemma mergePrLoop_get_mem (p : List (String × Stats)) :
    ∀ (acc : List (String × Stats)) (k : String) (s : Stats),
      (dictKeys p).Nodup → dictGet p k = some s →
      dictGet (mergePrLoop acc p) k =
        some ⟨s.prs, ((dictGet acc k).getD zeroStats).commits,
          ((dictGet acc k).getD zeroStats).lines + s.lines⟩ := by
  induction p with
  | nil => intro acc k s _ h; simp [dictGet] at h
  | cons hd tl ih =>
    obtain ⟨user, t⟩ := hd
    intro acc k s hnodup hget
    have hnd_tl : (dictKeys tl).Nodup := by
      simpa [dictKeys] using List.Nodup.of_cons hnodup
    by_cases hk : k = user
    · subst hk
      have hst : t = s := by simpa [dictGet] using hget
      subst hst
      have hknotin : k ∉ dictKeys tl := by
        simp [dictKeys] at hnodup ⊢
        exact hnodup.1
      rw [mergePrLoop, mergePrLoop_get_not_mem tl _ k hknotin,
        dictGet_dictSet_self, dictGet_ensureKey_self]
      simp
    · have hget' : dictGet tl k = some s := by
        simpa [dictGet, hk] using hget
      rw [mergePrLoop, ih _ k s hnd_tl hget', dictGet_dictSet_ne _ _ _ _ hk,
        dictGet_ensureKey_ne _ _ _ hk]

lemma mergeCommitLoop_get_not_mem (c : List (String × Stats)) :
    ∀ (acc : List (String × Stats)) (k : String), k ∉ dictKeys c →
      dictGet (mergeCommitLoop acc c) k = dictGet acc k := by
  induction c with
  | nil => intro acc k _; rfl
  | cons hd tl ih =>
    obtain ⟨user, s⟩ := hd
    intro acc k hk
    have hne : k ≠ user := by simp [dictKeys] at hk; exact hk.1
    have htl : k ∉ dictKeys tl := by simp [dictKeys] at hk ⊢; exact hk.2
    rw [mergeCommitLoop, ih _ k htl, dictGet_dictSet_ne _ _ _ _ hne,
      dictGet_ensureKey_ne _ _ _ hne]

lemma mergeCommitLoop_get_mem (c : List (String × Stats)) :
    ∀ (acc : List (String × Stats)) (k : String) (s : Stats),
      (dictKeys c).Nodup → dictGet c k = some s →
      dictGet (mergeCommitLoop acc c) k =
        some ⟨((dictGet acc k).getD zeroStats).prs, s.commits,
          ((dictGet acc k).getD zeroStats).lines + s.lines⟩ := by
  induction c with
  | nil => intro acc k s _ h; simp [dictGet] at h
  | cons hd tl ih =>
    obtain ⟨user, t⟩ := hd
    intro acc k s hnodup hget
    have hnd_tl : (dictKeys tl).Nodup := by
      simpa [dictKeys] using List.Nodup.of_cons hnodup
    by_cases hk : k = user
    · subst hk
      have hst : t = s := by simpa [dictGet] using hget
      subst hst
      have hknotin : k ∉ dictKeys tl := by
        simp [dictKeys] at hnodup ⊢
        exact hnodup.1
      rw [mergeCommitLoop, mergeCommitLoop_get_not_mem tl _ k hknotin,
        dictGet_dictSet_self, dictGet_ensureKey_self]
      simp
    · have hget' : dictGet tl k = some s := by
        simpa [dictGet, hk] using hget
      rw [mergeCommitLoop, ih _ k s hnd_tl hget', dictGet_dictSet_ne _ _ _ _ hk,
        dictGet_ensureKey_ne _ _ _ hk]

lemma mergeStats_dictGet (p c : List (String × Stats))
    (hp : (dictKeys p).Nodup) (hc : (dictKeys c).Nodup) (k : String) :
    dictGet (mergeStats p c) k =
      match dictGet p k, dictGet c k with
      | none, none => none
      | some a, none => some ⟨a.prs, 0, a.lines⟩
      | none, some b => some ⟨0, b.commits, b.lines⟩
      | some a, some b => some ⟨a.prs, b.commits, a.lines + b.lines⟩ := by
  unfold mergeStats
  have hbase : dictGet (mergePrLoop [] p) k =
      match dictGet p k with
      | none => none
      | some a => some ⟨a.prs, 0, a.lines⟩ := by
    cases h1 : dictGet p k with
    | none =>
      have : k ∉ dictKeys p := (dictGet_eq_none_iff p k).mp h1
      rw [mergePrLoop_get_not_mem p [] k this]
      rfl
    | some a =>
      have := mergePrLoop_get_mem p [] k a hp h1
      simpa [dictGet, zeroStats] using this
  cases h2 : dictGet c k with
  | none =>
    have hnotc : k ∉ dictKeys c := (dictGet_eq_none_iff c k).mp h2
    rw [mergeCommitLoop_get_not_mem c _ k hnotc, hbase]
    cases h1 : dictGet p k <;> rfl
  | some b =>
    have := mergeCommitLoop_get_mem c (mergePrLoop [] p) k b hc h2
    rw [this, hbase]
    cases h1 : dictGet p k <;> simp [zeroStats]

/-! ## Invariants of the per-endpoint aggregators -/

lemma pullStep_preserves (d d' : List (String × Stats)) (it : PullItem)
    (hstep : pullStep d it = some d')
    (hd : (dictKeys d).Nodup ∧ ∀ k a, dictGet d k = some a → 1 ≤ a.prs) :
    (dictKeys d').Nodup ∧ ∀ k a, dictGet d' k = some a → 1 ≤ a.prs := by
  unfold pullStep at hstep
  cases hid : pullIdentity it with
  | none => rw [hid] at hstep; exact absurd hstep (by simp)
  | some key =>
    rw [hid] at hstep
    simp only [Option.some.injEq] at hstep
    subst hstep
    constructor
    · exact nodup_dictKeys_dictSet _ _ _ (nodup_dictKeys_ensureKey d key hd.1)
    · intro k a hget
      by_cases hk : k = key
      · subst hk
        rw [dictGet_dictSet_self] at hget
        cases hget
        simp
      · rw [dictGet_dictSet_ne _ _ _ _ hk, dictGet_ensureKey_ne _ _ _ hk] at hget
        exact hd.2 k a hget

lemma commitStep_preserves (d d' : List (String × Stats)) (it : CommitItem)
    (hstep : commitStep d it = some d')
    (hd : (dictKeys d).Nodup ∧ ∀ k a, dictGet d k = some a → 1 ≤ a.commits) :
    (dictKeys d').Nodup ∧ ∀ k a, dictGet d' k = some a → 1 ≤ a.commits := by
  unfold commitStep at hstep
  cases hid : commitIdentity it with
  | none => rw [hid] at hstep; exact absurd hstep (by simp)
  | some key =>
    rw [hid] at hstep
    simp only [Option.some.injEq] at hstep
    subst hstep
    constructor
    · exact nodup_dictKeys_dictSet _ _ _ (nodup_dictKeys_ensureKey d key hd.1)
    · intro k a hget
      by_cases hk : k = key
      · subst hk
        rw [dictGet_dictSet_self] at hget
        cases hget
        simp
      · rw [dictGet_dictSet_ne _ _ _ _ hk, dictGet_ensureKey_ne _ _ _ hk] at hget
        exact hd.2 k a hget

lemma pullsAggLoop_invariant (items : List PullItem) :
    ∀ (d d' : List (String × Stats)), pullsAggLoop d items = some d' →
      ((dictKeys d).Nodup ∧ ∀ k a, dictGet d k = some a → 1 ≤ a.prs) →
      (dictKeys d').Nodup ∧ ∀ k a, dictGet d' k = some a → 1 ≤ a.prs := by
  induction items with
  | nil =>
    intro d d' h hd
    unfold pullsAggLoop at h
    simp only [Option.some.injEq] at h
    subst h
    exact hd
  | cons it rest ih =>
    intro d d' h hd
    unfold pullsAggLoop at h
    cases hstep : pullStep d it with
    | none => rw [hstep] at h; exact absurd h (by simp)
    | some d2 =>
      rw [hstep] at h
      exact ih d2 d' h (pullStep_preserves d d2 it hstep hd)

lemma commitsAggLoop_invariant (items : List CommitItem) :
    ∀ (d d' : List (String × Stats)), commitsAggLoop d items = some d' →
      ((dictKeys d).Nodup ∧ ∀ k a, dictGet d k = some a → 1 ≤ a.commits) →
      (dictKeys d').Nodup ∧ ∀ k a, dictGet d' k = some a → 1 ≤ a.commits := by
  induction items with
  | nil =>
    intro d d' h hd
    unfold commitsAggLoop at h
    simp only [Option.some.injEq] at h
    subst h
    exact hd
  | cons it rest ih =>
    intro d d' h hd
    unfold commitsAggLoop at h
    cases hstep : commitStep d it with
    | none => rw [hstep] at h; exact absurd h (by simp)
    | some d2 =>
      rw [hstep] at h
      exact ih d2 d' h (commitStep_preserves d d2 it hstep hd)

lemma get_user_stats_pulls_invariant (items : List PullItem)
    (p : List (String × Stats)) (h : get_user_stats_pulls items = some p) :
    (dictKeys p).Nodup ∧ ∀ k a, dictGet p k = some a → 1 ≤ a.prs :=
  pullsAggLoop_invariant items [] p h ⟨List.nodup_nil, by intro k a hget; simp [dictGet] at hget⟩

lemma get_user_stats_commits_invariant (items : List CommitItem)
    (c : List (String × Stats)) (h : get_user_stats_commits items = some c) :
    (dictKeys c).Nodup ∧ ∀ k a, dictGet c k = some a → 1 ≤ a.commits :=
  commitsAggLoop_invariant items [] c h ⟨List.nodup_nil, by intro k a hget; simp [dictGet] at hget⟩

/-! ## Lemmas about the descending sort -/

lemma statKeyLt_asymm (a b : Stats) (h : statKeyLt a b) : ¬ statKeyLt b a := by
  unfold statKeyLt at *
  omega

lemma statKeyLt_lt_of_not_lt (x y z : Stats) (hyx : statKeyLt y x)
    (hyz : ¬ statKeyLt y z) : ¬ statKeyLt x z := by
  unfold statKeyLt at *
  omega

lemma mem_insertDesc (x z : String × Stats) (l : List (String × Stats)) :
    z ∈ insertDesc x l ↔ z = x ∨ z ∈ l := by
  induction l with
  | nil => simp [insertDesc]
  | cons y t ih =>
    by_cases h : statKeyLt y.2 x.2
    · simp [insertDesc, h]
    · simp [insertDesc, h, ih]
      tauto

lemma pairwise_insertDesc (x : String × Stats) (l : List (String × Stats))
    (h : List.Pairwise (fun u v => ¬ statKeyLt u.2 v.2) l) :
    List.Pairwise (fun u v => ¬ statKeyLt u.2 v.2) (insertDesc x l) := by
  induction l with
  | nil => simp [insertDesc]
  | cons y t ih =>
    rw [List.pairwise_cons] at h
    by_cases hyx : statKeyLt y.2 x.2
    · rw [show insertDesc x (y :: t) = x :: y :: t from by simp [insertDesc, hyx]]
      refine List.Pairwise.cons ?_ (List.Pairwise.cons h.1 h.2)
      intro z hz
      rcases List.mem_cons.mp hz with hzy | hzt
      · subst hzy
        exact statKeyLt_asymm _ _ hyx
      · exact statKeyLt_lt_of_not_lt x.2 y.2 z.2 hyx (h.1 z hzt)
    · rw [show insertDesc x (y :: t) = y :: insertDesc x t from by
        simp [insertDesc, hyx]]
      refine List.Pairwise.cons ?_ (ih h.2)
      intro z hz
      rcases (mem_insertDesc x z t).mp hz with hzx | hzt
      · subst hzx
        exact hyx
      · exact h.1 z hzt

lemma perm_insertDesc (x : String × Stats) (l : List (String × Stats)) :
    (insertDesc x l).Perm (x :: l) := by
  induction l with
  | nil => simp [insertDesc]
  | cons y t ih =>
    by_cases h : statKeyLt y.2 x.2
    · simp [insertDesc, h]
    · rw [show insertDesc x (y :: t) = y :: insertDesc x t from by simp [insertDesc, h]]
      exact (ih.cons y).trans (List.Perm.swap x y t)

lemma sortAux_pairwise (l : List (String × Stats)) :
    ∀ acc, List.Pairwise (fun u v => ¬ statKeyLt u.2 v.2) acc →
      List.Pairwise (fun u v => ¬ statKeyLt u.2 v.2)
        (l.foldl (fun a x => insertDesc x a) acc) := by
  induction l with
  | nil => intro acc h; exact h
  | cons y t ih =>
    intro acc h
    exact ih (insertDesc y acc) (pairwise_insertDesc y acc h)

lemma sortAux_perm (l : List (String × Stats)) :
    ∀ acc, (l.foldl (fun a x => insertDesc x a) acc).Perm (acc ++ l) := by
  induction l with
  | nil => intro acc; simp
  | cons y t ih =>
    intro acc
    have h1 := ih (insertDesc y acc)
    have h2 : (insertDesc y acc ++ t).Perm ((y :: acc) ++ t) :=
      (perm_insertDesc y acc).append_right t
    have h3 : ((y :: acc) ++ t).Perm (acc ++ y :: t) := by
      simpa using List.perm_middle.symm
    exact (h1.trans h2).trans h3

lemma sortUsersDesc_perm (l : List (String × Stats)) : (sortUsersDesc l).Perm l := by
  have h := sortAux_perm l []
  simpa [sortUsersDesc] using h

lemma sortUsersDesc_pairwise (l : List (String × Stats)) :
    List.Pairwise (fun u v => ¬ statKeyLt u.2 v.2) (sortUsersDesc l) :=
  sortAux_pairwise l [] List.Pairwise.nil

end GithubStats

/-! ## Claim theorems -/

namespace GithubStats

/-- C1: for a response script of `k` full pages of exactly 100 items followed
by one page of `m < 100` items, `get_github_data` returns the ordered
concatenation of all `100 * k + m` items, issues exactly `k + 1` page requests
with page numbers `1, 2, ..., k + 1` (so the first request is page 1), never
sleeps and prints nothing; in particular with `k = 0` — a first page of fewer
than 100 items — exactly one request is issued and that page's items are
returned. -/
theorem C1_paged_fetch_full_then_short {α : Type} (fullPages : List (List α))
    (lastPage : List α) (hfull : ∀ p ∈ fullPages, p.length = 100)
    (hlast : lastPage.length < 100) :
    get_github_data (fullPages.map (fun d => ⟨200, d⟩) ++ [⟨200, lastPage⟩]) =
      ⟨some (fullPages.flatten ++ lastPage), List.range' 1 (fullPages.length + 1),
        0, []⟩ ∧
    (fullPages.flatten ++ lastPage).length = 100 * fullPages.length + lastPage.length ∧
    (List.range' 1 (fullPages.length + 1)).length = fullPages.length + 1 := by
  refine ⟨?_, ?_, ?_⟩
  · have h := fetchLoop_full_prefix fullPages hfull [⟨200, lastPage⟩] 1 []
    rw [fetchLoop_short_page lastPage hlast [] (1 + fullPages.length)
      ([] ++ fullPages.flatten)] at h
    simpa [get_github_data, range'_one_concat] using h
  · simp [flatten_length_of_full fullPages hfull]
  · simp [List.length_range']

/-- C1 witness: one full page of 100 zeros followed by a one-item page yields
the 101 items in order with requests for pages 1 and 2. -/
theorem C1_paged_fetch_full_then_short_witness :
    (∀ p ∈ [List.replicate 100 (0 : Nat)], p.length = 100) ∧
    ([7] : List Nat).length < 100 ∧
    (get_github_data ([List.replicate 100 (0 : Nat)].map (fun d => ⟨200, d⟩) ++
        [⟨200, [7]⟩]) =
      ⟨some ([List.replicate 100 (0 : Nat)].flatten ++ [7]), List.range' 1 2, 0, []⟩ ∧
    ([List.replicate 100 (0 : Nat)].flatten ++ [7]).length = 100 * 1 + 1 ∧
    (List.range' 1 2).length = 2) :=
  ⟨by simp, by simp,
    C1_paged_fetch_full_then_short [List.replicate 100 0] [7] (by simp) (by simp)⟩

/-- C6: a 403 (rate-limit) response makes the pagination loop print the
rate-limit message, add exactly 60 seconds of sleeping and issue exactly one
more request for the same unchanged page number, after which it continues
exactly as before the 403 (no error outcome exists for rate limiting); and a
script of `n` consecutive 403 responses leaves the loop still running after
`n` requests, all for page 1, having slept `60 * n` seconds — the retry is
unbounded. -/
theorem C6_rate_limit_sleep_and_retry :
    (∀ (α : Type) (perPage : Nat) (body : List α) (rest : List (HttpResponse α))
        (page : Nat) (acc : List α),
      fetchLoop perPage (⟨403, body⟩ :: rest) page acc =
        ⟨(fetchLoop perPage rest page acc).result,
         page :: (fetchLoop perPage rest page acc).pagesRequested,
         (fetchLoop perPage rest page acc).sleepSeconds + 60,
         "Rate limit exceeded. Waiting 60 seconds..." ::
           (fetchLoop perPage rest page acc).printed⟩) ∧
    (∀ n : Nat,
      get_github_data (List.replicate n (⟨403, []⟩ : HttpResponse Nat)) =
        ⟨none, List.replicate n 1, 60 * n,
          List.replicate n "Rate limit exceeded. Waiting 60 seconds..."⟩) := by
  constructor
  · intro α perPage body rest page acc
    exact fetchLoop_403 perPage body rest page acc
  · intro n
    induction n with
    | zero => simp [get_github_data, fetchLoop]
    | succ m ih =>
      unfold get_github_data at ih ⊢
      rw [List.replicate_succ, fetchLoop_403, ih]
      simp only [FetchOutcome.mk.injEq, List.replicate_succ, true_and, and_true]
      omega

/-- C7: a response whose status is neither 200 nor 403 makes the pagination
loop print the failure message and return normally with exactly the items
accumulated so far (a `some` result indistinguishable from a successful run),
issuing no further requests; composed with preceding full pages, the fetcher
returns exactly those pages' items. -/
theorem C7_failure_ends_loop_returns_accumulated {α : Type} (status : Nat)
    (h200 : status ≠ 200) (h403 : status ≠ 403) :
    (∀ (body : List α) (rest : List (HttpResponse α)) (perPage page : Nat)
        (acc : List α),
      fetchLoop perPage (⟨status, body⟩ :: rest) page acc =
        ⟨some acc, [page], 0, ["API request failed: " ++ toString status]⟩) ∧
    (∀ (fullPages : List (List α)) (body : List α),
      (∀ p ∈ fullPages, p.length = 100) →
      get_github_data (fullPages.map (fun d => ⟨200, d⟩) ++ [⟨status, body⟩]) =
        ⟨some fullPages.flatten, List.range' 1 (fullPages.length + 1), 0,
          ["API request failed: " ++ toString status]⟩) := by
  constructor
  · intro body rest perPage page acc
    simp [fetchLoop, h200, h403]
  · intro fullPages body hfull
    have h := fetchLoop_full_prefix fullPages hfull [⟨status, body⟩] 1 []
    simp only [fetchLoop, h200, h403, if_false, ite_false, reduceIte] at h
    simpa [get_github_data, range'_one_concat] using h

/-- C7 witness: a 404 after one full page of 100 items returns exactly those
100 items with requests for pages 1 and 2, and a bare 404 first response
returns the empty accumulation. -/
theorem C7_failure_ends_loop_returns_accumulated_witness :
    (404 : Nat) ≠ 200 ∧ (404 : Nat) ≠ 403 ∧
    (∀ p ∈ [List.replicate 100 (5 : Nat)], p.length = 100) ∧
    fetchLoop 100 [(⟨404, []⟩ : HttpResponse Nat)] 1 [10] =
      ⟨some [10], [1], 0, ["API request failed: " ++ toString 404]⟩ ∧
    get_github_data ([List.replicate 100 (5 : Nat)].map (fun d => ⟨200, d⟩) ++
        [⟨404, []⟩]) =
      ⟨some [List.replicate 100 (5 : Nat)].flatten, List.range' 1 2, 0,
        ["API request failed: " ++ toString 404]⟩ :=
  ⟨by decide, by decide, by simp,
    (C7_failure_ends_loop_returns_accumulated 404 (by decide) (by decide)).1 [] [] 100 1 [10],
    (C7_failure_ends_loop_returns_accumulated 404 (by decide) (by decide)).2
      [List.replicate 100 5] [] (by simp)⟩

/-- C2: for any two per-endpoint mappings with distinct keys, `main`'s merge
is a union-of-keys merge: a contributor only in the pull-request mapping keeps
its `prs` with zero `commits`, a contributor only in the commit mapping keeps
its `commits` with zero `prs`, a contributor in both takes `prs` from the
pull-request mapping and `commits` from the commit mapping, and in every case
`lines` is the sum of the lines fields the sources hold for that
contributor. -/
theorem C2_merge_union_of_keys (p c : List (String × Stats))
    (hp : (dictKeys p).Nodup) (hc : (dictKeys c).Nodup) (k : String) :
    dictGet (mergeStats p c) k =
      match dictGet p k, dictGet c k with
      | none, none => none
      | some a, none => some ⟨a.prs, 0, a.lines⟩
      | none, some b => some ⟨0, b.commits, b.lines⟩
      | some a, some b => some ⟨a.prs, b.commits, a.lines + b.lines⟩ :=
  mergeStats_dictGet p c hp hc k

/-- C2 witness: merging pull-request stats `{alice: prs=3, lines=10}` with
commit stats `{alice: commits=5, lines=7}` yields
`{alice: prs=3, commits=5, lines=17}`. -/
theorem C2_merge_union_of_keys_witness :
    (dictKeys [("alice", (⟨3, 0, 10⟩ : Stats))]).Nodup ∧
    (dictKeys [("alice", (⟨0, 5, 7⟩ : Stats))]).Nodup ∧
    dictGet (mergeStats [("alice", ⟨3, 0, 10⟩)] [("alice", ⟨0, 5, 7⟩)]) "alice" =
      some ⟨3, 5, 17⟩ :=
  ⟨by simp [dictKeys], by simp [dictKeys], by
    have h := C2_merge_union_of_keys [("alice", ⟨3, 0, 10⟩)] [("alice", ⟨0, 5, 7⟩)]
      (by simp [dictKeys]) (by simp [dictKeys]) "alice"
    simpa [dictGet] using h⟩

/-- C8: in any run — the merge of a successful pull-request aggregation with a
successful commit aggregation — every contributor present in the merged
mapping has a positive pull-request count or a positive commit count; no entry
ever has both counters zero. -/
theorem C8_no_all_zero_entry (pullItems : List PullItem)
    (commitItems : List CommitItem) (p c : List (String × Stats))
    (hp : get_user_stats_pulls pullItems = some p)
    (hc : get_user_stats_commits commitItems = some c)
    (k : String) (s : Stats) (hs : dictGet (mergeStats p c) k = some s) :
    0 < s.prs ∨ 0 < s.commits := by
  obtain ⟨hpnd, hpval⟩ := get_user_stats_pulls_invariant pullItems p hp
  obtain ⟨hcnd, hcval⟩ := get_user_stats_commits_invariant commitItems c hc
  rw [mergeStats_dictGet p c hpnd hcnd k] at hs
  cases h1 : dictGet p k with
  | none =>
    cases h2 : dictGet c k with
    | none => rw [h1, h2] at hs; exact absurd hs (by simp)
    | some b =>
      rw [h1, h2] at hs
      cases hs
      exact Or.inr (hcval k b h2)
  | some a =>
    cases h2 : dictGet c k with
    | none =>
      rw [h1, h2] at hs
      cases hs
      exact Or.inl (hpval k a h1)
    | some b =>
      rw [h1, h2] at hs
      cases hs
      exact Or.inl (hpval k a h1)

/-- C8 witness: one pull request by an unknown author and one commit by Jane
merge into entries each having a positive counter. -/
theorem C8_no_all_zero_entry_witness :
    get_user_stats_pulls [⟨JField.absent, none⟩] = some [("unknown", ⟨1, 0, 0⟩)] ∧
    get_user_stats_commits
        [⟨JField.absent, JField.val ⟨JField.val ⟨some "Jane"⟩⟩, none⟩] =
      some [("Jane", ⟨0, 1, 0⟩)] ∧
    dictGet (mergeStats [("unknown", ⟨1, 0, 0⟩)] [("Jane", ⟨0, 1, 0⟩)]) "unknown" =
      some ⟨1, 0, 0⟩ ∧
    (0 < (1 : Nat) ∨ 0 < (0 : Nat)) :=
  ⟨rfl, rfl, by simp [mergeStats, mergePrLoop, mergeCommitLoop, ensureKey, dictGet,
      dictSet, zeroStats],
    C8_no_all_zero_entry [⟨JField.absent, none⟩]
      [⟨JField.absent, JField.val ⟨JField.val ⟨some "Jane"⟩⟩, none⟩]
      [("unknown", ⟨1, 0, 0⟩)] [("Jane", ⟨0, 1, 0⟩)] rfl rfl "unknown" ⟨1, 0, 0⟩
      (by simp [mergeStats, mergePrLoop, mergeCommitLoop, ensureKey, dictGet,
        dictSet, zeroStats])⟩

/-- C10: a pull-request item whose `user` field is present but null makes the
identity extraction raise (embedded as `none`) rather than fall back to
`"unknown"`, so the pull-request aggregation is not total: aggregating a list
containing such an item yields no mapping at all, while the same run without
the item succeeds. -/
theorem C10_null_user_aggregation_fails :
    pullIdentity ⟨JField.null, none⟩ = none ∧
    pullIdentity ⟨JField.null, none⟩ ≠ some "unknown" ∧
    get_user_stats_pulls [⟨JField.null, none⟩] = none ∧
    get_user_stats_pulls [] = some [] :=
  ⟨rfl, by simp [pullIdentity], rfl, rfl⟩

/-- C3: for every merged mapping, the report order is a permutation of the
entries that is sorted descending by the lexicographic key
`(pullRequests, commits, linesChanged)` — no earlier entry has a strictly
smaller key than a later one, so a tie on pull requests is broken by commits,
then by lines; in particular `("a", prs=2, commits=1, lines=5)` and
`("b", prs=2, commits=3, lines=1)` are emitted with `b` first. -/
theorem C3_sort_descending_lexicographic :
    (∀ l : List (String × Stats),
      (sortUsersDesc l).Perm l ∧
      List.Pairwise (fun u v => ¬ statKeyLt u.2 v.2) (sortUsersDesc l)) ∧
    sortUsersDesc [("a", ⟨2, 1, 5⟩), ("b", ⟨2, 3, 1⟩)] =
      [("b", ⟨2, 3, 1⟩), ("a", ⟨2, 1, 5⟩)] :=
  ⟨fun l => ⟨sortUsersDesc_perm l, sortUsersDesc_pairwise l⟩, by
    simp [sortUsersDesc, insertDesc, statKeyLt]⟩

/-- C4 counterexample: a pull-request item whose `user.login` is present but
empty is NOT treated as absent: its identity is the empty string, not
`"unknown"`, and the aggregation groups it under the blank key — refuting the
claim that on both endpoints a falsy identity field falls back and that no
contributor is ever grouped under a blank key. -/
theorem C4_counterexample_blank_pull_login :
    pullIdentity ⟨JField.val ⟨some ""⟩, none⟩ = some "" ∧
    pullIdentity ⟨JField.val ⟨some ""⟩, none⟩ ≠ some "unknown" ∧
    get_user_stats_pulls [⟨JField.val ⟨some ""⟩, none⟩] = some [("", ⟨1, 0, 0⟩)] ∧
    dictKeys [("", (⟨1, 0, 0⟩ : Stats))] = [""] :=
  ⟨rfl, by simp [pullIdentity], rfl, rfl⟩

/-- C4 amended: only the commits endpoint treats a present-but-falsy platform
login as absent (falling back to the commit-metadata author name, then
`"unknown"` when fields are missing); the pulls endpoint applies no falsiness
check, so a present empty-string login is used directly as the grouping key,
and likewise a present empty commit-metadata author name is used as is — blank
keys are possible on both endpoints. -/
theorem C4_amended_falsy_identity_fallback :
    (∀ (nm : String) (det : Option CommitDetail),
      commitIdentity ⟨JField.val ⟨some ""⟩, JField.val ⟨JField.val ⟨some nm⟩⟩, det⟩ =
        some nm) ∧
    (∀ det : Option CommitDetail,
      commitIdentity ⟨JField.val ⟨some ""⟩, JField.absent, det⟩ = some "unknown") ∧
    (∀ det : Option CommitDetail,
      commitIdentity ⟨JField.val ⟨some ""⟩, JField.val ⟨JField.absent⟩, det⟩ =
        some "unknown") ∧
    (∀ files : Option (List PrFile),
      pullIdentity ⟨JField.val ⟨some ""⟩, files⟩ = some "") ∧
    (∀ det : Option CommitDetail,
      commitIdentity ⟨JField.val ⟨none⟩, JField.val ⟨JField.val ⟨some ""⟩⟩, det⟩ =
        some "") :=
  ⟨fun _ _ => rfl, fun _ => rfl, fun _ => rfl, fun _ => rfl, fun _ => rfl⟩

/-- C5: a commit item's contributor identity resolves to the platform author
login when it is present (and non-empty), else to the commit-metadata author
name, else to `"unknown"`; a commit with login `"carol"` and metadata name
`"Carol S."` is attributed to `"carol"`, and a commit with no platform login
but metadata name `"Jane Doe"` is attributed to `"Jane Doe"`, including at the
aggregation level. -/
theorem C5_commit_identity_resolution :
    (∀ (s nm : String) (det : Option CommitDetail), s ≠ "" →
      commitIdentity ⟨JField.val ⟨some s⟩, JField.val ⟨JField.val ⟨some nm⟩⟩, det⟩ =
        some s) ∧
    (∀ (nm : String) (det : Option CommitDetail),
      commitIdentity ⟨JField.val ⟨none⟩, JField.val ⟨JField.val ⟨some nm⟩⟩, det⟩ =
        some nm) ∧
    (∀ (nm : String) (det : Option CommitDetail),
      commitIdentity ⟨JField.absent, JField.val ⟨JField.val ⟨some nm⟩⟩, det⟩ =
        some nm) ∧
    (∀ det : Option CommitDetail,
      commitIdentity ⟨JField.absent, JField.absent, det⟩ = some "unknown") ∧
    get_user_stats_commits
        [⟨JField.val ⟨some "carol"⟩, JField.val ⟨JField.val ⟨some "Carol S."⟩⟩, none⟩] =
      some [("carol", ⟨0, 1, 0⟩)] ∧
    get_user_stats_commits
        [⟨JField.val ⟨none⟩, JField.val ⟨JField.val ⟨some "Jane Doe"⟩⟩, none⟩] =
      some [("Jane Doe", ⟨0, 1, 0⟩)] := by
  refine ⟨?_, fun nm det => rfl, fun nm det => rfl, fun det => rfl, rfl, rfl⟩
  intro s nm det hs
  simp [commitIdentity, hs]

/-- C5 witness: the login `"carol"` beats the metadata name `"Carol S."`. -/
theorem C5_commit_identity_resolution_witness :
    ("carol" : String) ≠ "" ∧
    commitIdentity
        ⟨JField.val ⟨some "carol"⟩, JField.val ⟨JField.val ⟨some "Carol S."⟩⟩, none⟩ =
      some "carol" :=
  ⟨by simp, C5_commit_identity_resolution.1 "carol" "Carol S." none (by simp)⟩

/-- C9: an empty merged mapping makes the presenter print exactly the literal
no-contributions message and no table rows, while a non-empty mapping prints
the header, the dashed rule, and then exactly one row per contributor of the
form `- {identity}: {prs} pull requests, {commits} commits, {lines} lines of
code changed`, in sorted order (one row per entry of the input mapping, up to
the sort's permutation). -/
theorem C9_report_rows_and_empty_message :
    renderReport [] = ["No contributions found between the specified dates."] ∧
    (∀ us : List (String × Stats), us ≠ [] →
      renderReport us = "\nContributor Statistics:" ::
          String.mk (List.replicate 50 '-') :: (sortUsersDesc us).map renderRow ∧
      ((sortUsersDesc us).map renderRow).Perm (us.map renderRow)) := by
  refine ⟨rfl, fun us h => ⟨?_, (sortUsersDesc_perm us).map renderRow⟩⟩
  rw [renderReport, if_neg (by simpa [List.isEmpty_iff] using h)]

/-- C9 witness: a single contributor produces the message-free report with
exactly one row. -/
theorem C9_report_rows_and_empty_message_witness :
    ([("alice", (⟨1, 2, 3⟩ : Stats))] ≠ []) ∧
    renderReport [("alice", ⟨1, 2, 3⟩)] = "\nContributor Statistics:" ::
        String.mk (List.replicate 50 '-') ::
        (sortUsersDesc [("alice", ⟨1, 2, 3⟩)]).map renderRow ∧
    ((sortUsersDesc [("alice", ⟨1, 2, 3⟩)]).map renderRow).Perm
      ([("alice", (⟨1, 2, 3⟩ : Stats))].map renderRow) :=
  ⟨by simp, C9_report_rows_and_empty_message.2 [("alice", ⟨1, 2, 3⟩)] (by simp)⟩

end GithubStats
